import Mathlib

/-
Shallow embedding of `platformio/telemetry.py` (Python 2): the `MPDataPusher`
dispatch engine (LIFO queue, worker pool, offline latch), `MeasurementProtocol.send`,
and the backup/resend protocol (`backup_reports`, `resend_backuped_reports`,
`_finalize`).
-/

namespace Telemetry

/-- Wall-clock values returned by Python's `time()` (floats) are modelled as rationals. -/
abbrev Time := Rat

/-- Python `int()` applied to a float truncates toward zero. -/
def pyTrunc (q : Rat) : Int :=
  if 0 ≤ q then q.floor else q.ceil

/-- Value of a record's "qt" (queue-time) key.  `MeasurementProtocol.send` converts a raw
`time()` float into an integer millisecond delta, and `backup_reports` converts an integer
delta back into a raw UNIX float; both shapes occur in the code. -/
inductive QT where
  | raw (t : Time)
  | delta (ms : Int)
deriving DecidableEq, Repr

/-- One telemetry record: the `_params` dict of a `MeasurementProtocol` instance as it is
pushed into `MPDataPusher`.  `payload` abstracts the event-specific keys ("t", "ec", "ea",
"el", "ev", "exd", ...); `static` lists which of the static keys ("v", "tid", ...) are
present; the "qt" key is kept separate because `push`, `_worker`, `send` and
`backup_reports` all treat it specially. -/
structure Item where
  payload : Nat
  static : List String := []
  qt : Option QT := none
deriving DecidableEq, Repr

/-- The static keys stripped by `backup_reports` (the tuple
`("v", "tid", "cid", "cd1", "cd2", "sr", "an")`); they are also exactly the static keys a
fresh `MeasurementProtocol` fills in via its constructor and `_prefill` helpers. -/
def STATIC_KEYS : List String := ["v", "tid", "cid", "cd1", "cd2", "sr", "an"]

/-- Timestamp-if-absent, the statement `if "qt" not in item: item["qt"] = time()` used
verbatim in `MPDataPusher.push` and (on the clone) in `MPDataPusher._worker`. -/
def stampQT (now : Time) (i : Item) : Item :=
  if i.qt = none then { i with qt := some (QT.raw now) } else i

/-- Outcome the HTTP POST in `MPDataPusher._send_data` would produce: a response carrying
a status code, or a network error / timeout / any other exception raised by `requests`
(all of which land in the bare `except` clause). -/
inductive HttpOutcome where
  | status (code : Nat)
  | netError
deriving DecidableEq, Repr

/-- Result of a call to `MPDataPusher._send_data`: its boolean return value, the
`_http_offline` flag after the call, and whether the HTTP POST was actually attempted. -/
structure SendResult where
  ok : Bool
  offline : Bool
  invoked : Bool
deriving DecidableEq, Repr

/-- MPDataPusher._send_data.  `r.raise_for_status()` raises `HTTPError` exactly for
status codes in `[400, 600)`.  The guard of the `HTTPError` handler is Python's chained
comparison `400 >= e.response.status_code < 500`, i.e. `400 >= code and code < 500` (as
written in the source — not the range test `400 <= code < 500`).  Every path that does not
return early falls through to `self._http_offline = True; return False`. -/
def send_data (offline : Bool) (resp : HttpOutcome) : SendResult :=
  if offline then ⟨false, offline, false⟩
  else
    match resp with
    | .netError => ⟨false, true, true⟩
    | .status code =>
      if 400 ≤ code ∧ code < 600 then
        if 400 ≥ code ∧ code < 500 then ⟨true, offline, true⟩
        else ⟨false, true, true⟩
      else ⟨true, offline, true⟩

/-- A worker-pool entry (`threading.Thread` handle); only its liveness is observable to
`_tune_workers`. -/
structure Worker where
  alive : Bool
deriving DecidableEq, Repr

/-- State of the `MPDataPusher` singleton.  The `Queue.LifoQueue` is modelled as a stack
with the most recently `put` item at the head (`put` conses, `get`/`get_nowait` pop the
head), mirroring the Python list the queue wraps (append/pop from the same end). -/
structure PusherState where
  queue : List Item
  failedque : List Item
  http_offline : Bool
  workers : List Worker
deriving DecidableEq, Repr

/-- The state `MPDataPusher.__init__` builds. -/
def initState : PusherState := ⟨[], [], false, []⟩

def MAX_WORKERS : Nat := 5

/-- The pruning loop of `_tune_workers`:
`for i, w in enumerate(self._workers): if not w.is_alive(): del self._workers[i]`.
CPython semantics: deleting the element at the iterator's current position shifts the
remaining elements left while the list iterator still advances, so the element
immediately after a deleted one is skipped (kept without being examined). -/
def pruneWorkers : List Worker → List Worker
  | [] => []
  | w :: ws =>
    if w.alive then w :: pruneWorkers ws
    else
      match ws with
      | [] => []
      | x :: rest => x :: pruneWorkers rest

/-- MPDataPusher._tune_workers: prune, then start `need_nums - active_nums` fresh (alive)
threads when `need_nums > active_nums`, where `need_nums = min(qsize, MAX_WORKERS)`. -/
def tuneWorkers (s : PusherState) : PusherState :=
  let ws := pruneWorkers s.workers
  let need := min s.queue.length MAX_WORKERS
  let active := ws.length
  if need ≤ active then { s with workers := ws }
  else { s with workers := ws ++ List.replicate (need - active) ⟨true⟩ }

/-- MPDataPusher.push: when `_http_offline` is set, timestamp-if-absent and append to
`_failedque`; otherwise `put` on the LIFO queue and re-tune the worker pool. -/
def push (s : PusherState) (item : Item) (now : Time) : PusherState :=
  if s.http_offline then
    { s with failedque := s.failedque ++ [stampQT now item] }
  else
    tuneWorkers { s with queue := item :: s.queue }

/-- MPDataPusher.get_items: `list(self._failedque)` followed by draining the LifoQueue
with `get_nowait` until `Queue.Empty` (most recently queued first). -/
def get_items (s : PusherState) : List Item :=
  s.failedque ++ s.queue

/-- collections.deque.remove: removes the first element equal to `x`, raising
`ValueError` when no equal element is present. -/
def dequeRemove (l : List Item) (x : Item) : Except Unit (List Item) :=
  if x ∈ l then .ok (l.erase x) else .error ()

/-- Observable actions of one pusher step: which item (if any) was popped from the queue
and for which item (if any) the HTTP POST was actually invoked. -/
structure Obs where
  popped : Option Item
  sent : Option Item
deriving DecidableEq, Repr

/-- One iteration of the `MPDataPusher._worker` loop, given the transport outcome the
POST would encounter.  On an empty queue `queue.get()` blocks and no iteration happens.
The body runs inside `try: ... except: pass`; `_send_data` never raises (it catches
everything internally) and `self._failedque.remove(_item)` succeeds because the clone was
appended just before, so the iteration always runs to completion. -/
def workerIter (s : PusherState) (resp : HttpOutcome) (now : Time) : PusherState × Obs :=
  match s.queue with
  | [] => (s, ⟨none, none⟩)
  | item :: rest =>
    let clone := stampQT now item
    let fq := s.failedque ++ [clone]
    let r := send_data s.http_offline resp
    let fq' := if r.ok then fq.erase clone else fq
    ({ s with queue := rest, failedque := fq', http_offline := r.offline },
     ⟨some item, if r.invoked then some item else none⟩)

/-- An externally triggered step of the pusher: a `push` issued by
`MeasurementProtocol.send`, or one worker-loop iteration together with the transport
outcome it encounters. -/
inductive Event where
  | push (item : Item) (now : Time)
  | work (resp : HttpOutcome) (now : Time)

def step (s : PusherState) : Event → PusherState × Obs
  | .push item now => (push s item now, ⟨none, none⟩)
  | .work resp now => workerIter s resp now

/-- Run a sequence of events. -/
def run (s : PusherState) : List Event → PusherState
  | [] => s
  | e :: es => run (step s e).1 es

/-- The observations produced along a run. -/
def runObs (s : PusherState) : List Event → List Obs
  | [] => []
  | e :: es => (step s e).2 :: runObs (step s e).1 es

/-- The queue-time correction in `MeasurementProtocol.send`:
`if "qt" in self._params and isinstance(self["qt"], float):
self["qt"] = int((time() - self["qt"]) * 1000)`. -/
def qtCorrect (now : Time) (i : Item) : Item :=
  { i with qt := match i.qt with
                 | some (QT.raw t) => some (QT.delta (pyTrunc ((now - t) * 1000)))
                 | o => o }

/-- MeasurementProtocol.send: returns the record pushed into `MPDataPusher` (with a raw
float queue time corrected into an integer millisecond delta), or `none` when the
`enable_telemetry` setting is off and the method returns without pushing anything. -/
def MPsend (enabled : Bool) (now : Time) (i : Item) : Option Item :=
  if enabled then some (qtCorrect now i) else none

/-- Accesses performed on the persistent application state
(`app.get_state_item` / `app.set_state_item`). -/
inductive Eff where
  | getState
  | setState
deriving DecidableEq, Repr

def KEEP_MAX_REPORTS : Nat := 100

/-- Per-item processing inside `backup_reports`: strip the static keys, then normalise
the queue time to a raw UNIX float.  In `time() - (params["qt"] / 1000)` the inner
division is Python 2 integer floor division, since the stored delta is an `int`. -/
def backupItem (now : Time) (i : Item) : Item :=
  let j : Item := { i with static := i.static.filter (fun k => !(STATIC_KEYS.contains k)) }
  match j.qt with
  | none => { j with qt := some (QT.raw now) }
  | some (QT.delta ms) => { j with qt := some (QT.raw (now - ((Int.fdiv ms 1000 : Int) : Rat))) }
  | some (QT.raw _) => j

/-- backup_reports.  The persistent state is the "backup" list stored under the
"telemetry" key; `none` models a telemetry state item with no "backup" key.  Returns the
new persisted backup together with the sequence of state-store accesses performed: on an
empty `items` argument the function returns before touching the store at all. -/
def backup_reports (store : Option (List Item)) (items : List Item) (now : Time) :
    Option (List Item) × List Eff :=
  if items = [] then (store, [])
  else
    let backup := store.getD [] ++ items.map (backupItem now)
    (some (backup.drop (backup.length - KEEP_MAX_REPORTS)), [.getState, .setState])

/-- The record `resend_backuped_reports` rebuilds for one stored report: a fresh
`MeasurementProtocol` (whose constructor fills in all the static keys) overwritten with
the report's own keys and queue time. -/
def mkResendItem (rep : Item) : Item :=
  { rep with static := STATIC_KEYS ++ rep.static.filter (fun k => !(STATIC_KEYS.contains k)) }

/-- resend_backuped_reports: returns `False` without touching anything when there is no
non-empty persisted backup; otherwise replays every stored report in order through
`MeasurementProtocol.send` (hence through `MPDataPusher.push` whenever telemetry is
enabled) and then unconditionally clears the store. -/
def resend_backuped_reports (enabled : Bool) (now : Time) (s : PusherState)
    (store : Option (List Item)) : PusherState × Option (List Item) × Bool :=
  match store with
  | none => (s, store, false)
  | some b =>
    if b = [] then (s, store, false)
    else
      let s' := b.foldl (fun st rep =>
        match MPsend enabled now (mkResendItem rep) with
        | none => st
        | some it => push st it now) s
      (s', some [], true)

/-- The polling loop of `_finalize`, at the k-th poll (elapsed = 200·k msec, guard
`elapsed < timeout` with `timeout = 1000`).  `inWait k` is the value of
`MPDataPusher().in_wait()` observed at the k-th poll (workers run concurrently, so these
observations are an input of the model); `intr = some k` means a `KeyboardInterrupt`
fires during the k-th `sleep(0.2)`.  Returns the number of polls performed, or `none`
when the loop was aborted by the interrupt.  The fuel argument only drives the
recursion: the guard fails once `k = 5`, so fuel `6 - k` is never exhausted first. -/
def finalizePollsAux (inWait : Nat → Bool) (intr : Option Nat) :
    Nat → Nat → Option Nat
  | 0, k => some k
  | fuel + 1, k =>
    if 200 * k < 1000 then
      if !(inWait k) then some k
      else if intr = some k then none
      else finalizePollsAux inWait intr fuel (k + 1)
    else some k

/-- The `while elapsed < timeout` loop of `_finalize`, started at elapsed = 0. -/
def finalizePolls (inWait : Nat → Bool) (intr : Option Nat) : Option Nat :=
  finalizePollsAux inWait intr 6 0

/-- The `_finalize` atexit hook: the polling wait followed by
`backup_reports(MPDataPusher().get_items())`, all inside
`try: ... except KeyboardInterrupt: pass` — so an interrupt during one of the sleeps
abandons the loop AND skips the call to `backup_reports` entirely.  Returns the
persisted backup afterwards and whether the backup call was reached. -/
def finalize (s : PusherState) (inWait : Nat → Bool) (intr : Option Nat)
    (store : Option (List Item)) (now : Time) : Option (List Item) × Bool :=
  match finalizePolls inWait intr with
  | some _ => ((backup_reports store (get_items s) now).1, true)
  | none => (store, false)

/-- A schedule entry for an interleaved execution of the startup-resend loop with the
concurrently running workers: `submit` is the main thread replaying the next stored
report, `work r` is one worker iteration encountering transport outcome `r`. -/
inductive SEv where
  | submit
  | work (resp : HttpOutcome)

/-- Interleaved execution of `resend_backuped_reports`'s replay loop (which submits the
stored reports in order from the main thread) with worker iterations draining the queue
concurrently.  `todo` holds the reports not yet replayed; a `work` event on an empty
queue is a worker blocked in `queue.get()` (no effect). -/
def interleave (enabled : Bool) (now : Time) :
    PusherState → List Item → List SEv → PusherState × List Item
  | s, todo, [] => (s, todo)
  | s, todo, SEv.submit :: evs =>
    match todo with
    | [] => interleave enabled now s [] evs
    | rep :: rest =>
      match MPsend enabled now (mkResendItem rep) with
      | none => interleave enabled now s rest evs
      | some it => interleave enabled now (push s it now) rest evs
  | s, todo, SEv.work resp :: evs =>
    interleave enabled now (workerIter s resp now).1 todo evs

/-- A transport outcome on which the send attempt fails (is not treated as settled by
`_send_data` from an online state). -/
def failing (resp : HttpOutcome) : Prop := (send_data false resp).ok = false

instance : DecidablePred failing := fun resp => by
  unfold failing; infer_instance

/-- Unreachable transport outcomes in the sense of the specification's taxonomy:
a network error, a timeout or any other non-HTTP exception (`netError`), or a
server-side (5xx) HTTP error. -/
def unreachableResp (resp : HttpOutcome) : Prop :=
  resp = HttpOutcome.netError ∨ ∃ c, resp = HttpOutcome.status c ∧ 500 ≤ c ∧ c < 600

/-! Small facts about the embedded operations, shared by several results below. -/

theorem tuneWorkers_queue (s : PusherState) : (tuneWorkers s).queue = s.queue := by
  unfold tuneWorkers
  dsimp only
  split <;> rfl

theorem tuneWorkers_failedque (s : PusherState) :
    (tuneWorkers s).failedque = s.failedque := by
  unfold tuneWorkers
  dsimp only
  split <;> rfl

theorem tuneWorkers_offline (s : PusherState) :
    (tuneWorkers s).http_offline = s.http_offline := by
  unfold tuneWorkers
  dsimp only
  split <;> rfl

/-- C10: backing up an empty list of records is a no-op — `backup_reports` returns
immediately, performing no state-store read or write and leaving the persisted backup
unchanged. -/
theorem C10_backup_empty_noop (store : Option (List Item)) (t : Time) :
    backup_reports store [] t = (store, []) := rfl

/-- C2 (code bug): `_send_data` does not classify every 4xx response as Rejected.
The handler guard is the chained comparison `400 >= status < 500`, so only status 400
takes the skip-and-settle branch; a 404 response falls through, returns `False` and sets
`_http_offline`, and a worker processing it keeps the record's clone in `_failedque`
(so the record is later persisted instead of dropped). -/
theorem C2_status_404_trips_gate :
    send_data false (HttpOutcome.status 404) = ⟨false, true, true⟩
    ∧ send_data false (HttpOutcome.status 400) = ⟨true, false, true⟩
    ∧ (workerIter ⟨[⟨1, [], none⟩], [], false, []⟩ (HttpOutcome.status 404) 0).1
        = ⟨[], [⟨1, [], some (QT.raw 0)⟩], true, []⟩ := by
  decide

/-- C6: the persisted backlog is capped at `KEEP_MAX_REPORTS = 100` records, the oldest
dropped first: any non-empty backup write leaves at most 100 records, and backing up 150
records onto any prior store state persists exactly the processed images of the most
recent 100 of them (the first 50 are dropped). -/
theorem C6_backlog_cap :
    (∀ store items t, items ≠ [] →
        ∀ l, (backup_reports store items t).1 = some l → l.length ≤ KEEP_MAX_REPORTS)
    ∧ (∀ store items t, items.length = 150 →
        (backup_reports store items t).1 = some (((items.drop 50).map (backupItem t)))) := by
  constructor
  · intro store items t hne l hl
    unfold backup_reports at hl
    rw [if_neg hne] at hl
    dsimp only at hl
    injection hl with hl
    subst hl
    rw [List.length_drop]
    unfold KEEP_MAX_REPORTS
    omega
  · intro store items t hlen
    have hne : items ≠ [] := by
      intro h
      rw [h] at hlen
      simp at hlen
    unfold backup_reports
    rw [if_neg hne]
    dsimp only
    congr 1
    have hlen2 : (store.getD [] ++ items.map (backupItem t)).length
        = (store.getD []).length + 150 := by
      simp [hlen]
    rw [hlen2]
    have harith : (store.getD []).length + 150 - KEEP_MAX_REPORTS
        = (store.getD []).length + 50 := by
      unfold KEEP_MAX_REPORTS
      omega
    rw [harith, List.drop_append, List.map_drop]

/-- Closed instance of `C6_backlog_cap` at a concrete store and item list. -/
theorem C6_backlog_cap_witness :
    (backup_reports (some [⟨7, [], none⟩]) (List.replicate 150 ⟨1, [], none⟩) 0).1
      = some ((((List.replicate 150 (⟨1, [], none⟩ : Item)).drop 50).map (backupItem 0))) :=
  C6_backlog_cap.2 (some [⟨7, [], none⟩]) (List.replicate 150 ⟨1, [], none⟩) 0 (by simp)

theorem erase_append_singleton_perm (l : List Item) (a : Item) :
    ((l ++ [a]).erase a).Perm l := by
  have hmem : a ∈ l ++ [a] := by simp
  have h1 := List.perm_cons_erase hmem
  have h2 : (l ++ [a]).Perm (a :: l) := List.perm_append_comm
  exact (h1.symm.trans h2).cons_inv

theorem erase_append_singleton_of_not_mem (l : List Item) (a : Item) (h : a ∉ l) :
    (l ++ [a]).erase a = l := by
  rw [List.erase_append_right [a] h, List.erase_cons_head a [], List.append_nil]

/-- C5: in each worker-loop iteration the popped record is cloned into `_failedque` with
a timestamp attached to the clone when absent, before the send is attempted; when the
send reports success the clone is removed again (so `_failedque` is restored, exactly
when no equal clone was already present, and up to permutation in general); when the
send fails — which includes every exception raised during the attempt, all swallowed by
`_send_data`'s bare `except` and the worker's own `try/except` — the clone stays in
`_failedque`, and the `deque.remove` call on the success path cannot raise because the
clone was just appended. -/
theorem C5_worker_iteration (s : PusherState) (resp : HttpOutcome) (now : Time)
    (item : Item) (rest : List Item) (hq : s.queue = item :: rest) :
    (workerIter s resp now).2.popped = some item
    ∧ (workerIter s resp now).1.queue = rest
    ∧ (stampQT now item).qt ≠ none
    ∧ ((send_data s.http_offline resp).ok = true →
        ((workerIter s resp now).1.failedque.Perm s.failedque
          ∧ (stampQT now item ∉ s.failedque →
              (workerIter s resp now).1.failedque = s.failedque)))
    ∧ ((send_data s.http_offline resp).ok = false →
        (workerIter s resp now).1.failedque = s.failedque ++ [stampQT now item])
    ∧ dequeRemove (s.failedque ++ [stampQT now item]) (stampQT now item)
        = Except.ok ((s.failedque ++ [stampQT now item]).erase (stampQT now item))
    ∧ (send_data s.http_offline HttpOutcome.netError).ok = false := by
  refine ⟨?_, ?_, ?_, ?_, ?_, ?_, ?_⟩
  · simp [workerIter, hq]
  · simp [workerIter, hq]
  · unfold stampQT
    split
    · simp
    · next h => exact h
  · intro hok
    constructor
    · simp only [workerIter, hq, hok, if_pos]
      exact erase_append_singleton_perm _ _
    · intro hnm
      simp only [workerIter, hq, hok, if_pos]
      exact erase_append_singleton_of_not_mem _ _ hnm
  · intro hok
    simp [workerIter, hq, hok]
  · rw [dequeRemove, if_pos (by simp)]
  · cases h : s.http_offline <;> rfl

/-- Closed instance of `C5_worker_iteration`: one worker iteration popping the only
queued record under a network error. -/
theorem C5_worker_iteration_witness :
    (workerIter ⟨[⟨1, [], none⟩], [], false, []⟩ HttpOutcome.netError 0).2.popped
      = some ⟨1, [], none⟩ :=
  (C5_worker_iteration ⟨[⟨1, [], none⟩], [], false, []⟩ HttpOutcome.netError 0
    ⟨1, [], none⟩ [] rfl).1

theorem pruneWorkers_all_alive : ∀ ws : List Worker,
    (∀ w ∈ ws, w.alive = true) → pruneWorkers ws = ws
  | [], _ => rfl
  | [w], h => by
    simp only [pruneWorkers]
    rw [if_pos (h w (List.mem_cons_self w []))]
  | w :: x :: rest, h => by
    simp only [pruneWorkers]
    rw [if_pos (h w (List.mem_cons_self w (x :: rest)))]
    rw [pruneWorkers_all_alive (x :: rest) (fun y hy => h y (List.mem_cons_of_mem w hy))]

theorem pruneWorkers_length_le : ∀ ws : List Worker,
    (pruneWorkers ws).length ≤ ws.length
  | [] => Nat.le_refl _
  | [w] => by
    simp only [pruneWorkers]
    split
    · simp
    · simp
  | w :: x :: rest => by
    simp only [pruneWorkers]
    split
    · have := pruneWorkers_length_le (x :: rest)
      simp only [List.length_cons] at this ⊢
      omega
    · have := pruneWorkers_length_le rest
      simp only [List.length_cons] at this ⊢
      omega

theorem replicate_all_alive (n : Nat) :
    ∀ w ∈ List.replicate n (⟨true⟩ : Worker), w.alive = true := by
  intro w hw
  rw [List.eq_of_mem_replicate hw]

/-- Both branches of `_tune_workers` in one equation: the roster afterwards is the pruned
roster extended by `max(0, need_nums - active_nums)` fresh live threads. -/
theorem tuneWorkers_workers (s : PusherState) :
    (tuneWorkers s).workers
      = pruneWorkers s.workers
        ++ List.replicate
            (min s.queue.length MAX_WORKERS - (pruneWorkers s.workers).length) ⟨true⟩ := by
  unfold tuneWorkers
  dsimp only
  split
  · next h => rw [Nat.sub_eq_zero_of_le h, List.replicate_zero, List.append_nil]
  · rfl

/-- Effect of one online `push` on the pool, under the invariant that the roster is
exactly `min(qsize, MAX_WORKERS)` live threads. -/
theorem push_workers_invariant (s : PusherState) (i : Item) (now : Time)
    (hoff : s.http_offline = false)
    (hw : s.workers = List.replicate (min s.queue.length MAX_WORKERS) ⟨true⟩) :
    (push s i now).http_offline = false
    ∧ (push s i now).queue.length = s.queue.length + 1
    ∧ (push s i now).workers
        = List.replicate (min (s.queue.length + 1) MAX_WORKERS) ⟨true⟩ := by
  have hpush : push s i now = tuneWorkers { s with queue := i :: s.queue } := by
    unfold push
    rw [hoff]
    simp
  refine ⟨?_, ?_, ?_⟩
  · rw [hpush, tuneWorkers_offline]
    exact hoff
  · rw [hpush, tuneWorkers_queue]
    simp
  · rw [hpush, tuneWorkers_workers]
    dsimp only
    rw [hw, pruneWorkers_all_alive _ (replicate_all_alive _)]
    rw [← List.replicate_add]
    congr 1
    simp only [List.length_replicate, List.length_cons]
    omega

/-- The pool invariant carried through a sequence of submits. -/
theorem pushFold_workers_invariant (now : Time) : ∀ (l : List Item) (s : PusherState),
    s.http_offline = false →
    s.workers = List.replicate (min s.queue.length MAX_WORKERS) ⟨true⟩ →
    (l.foldl (fun st i => push st i now) s).http_offline = false
    ∧ (l.foldl (fun st i => push st i now) s).queue.length = s.queue.length + l.length
    ∧ (l.foldl (fun st i => push st i now) s).workers
        = List.replicate
            (min ((l.foldl (fun st i => push st i now) s).queue.length) MAX_WORKERS)
            ⟨true⟩
  | [], s, hoff, hw => ⟨hoff, by simp, by simpa using hw⟩
  | i :: rest, s, hoff, hw => by
    obtain ⟨h1, h2, h3⟩ := push_workers_invariant s i now hoff hw
    have ih := pushFold_workers_invariant now rest (push s i now) h1 (by rw [h3, h2])
    refine ⟨ih.1, ?_, ih.2.2⟩
    simp only [List.foldl_cons] at ih ⊢
    rw [ih.2.1, h2]
    simp only [List.length_cons]
    omega

/-- C7: on every submit, `_tune_workers` prunes dead workers, computes
`need_nums = min(qsize, MAX_WORKERS)` and starts `need_nums - active` new threads when
that difference is positive (stated on rosters whose entries are all alive — in this
program worker threads loop forever and never die, so every reachable roster is of this
shape and the opportunistic prune is the identity); the roster never exceeds
`MAX_WORKERS = 5` entries from any roster within the cap; and submitting 10 records from
a fresh pusher leaves exactly 5 workers. -/
theorem C7_worker_pool :
    (∀ s : PusherState, (∀ w ∈ s.workers, w.alive = true) →
        (tuneWorkers s).workers
          = s.workers
            ++ List.replicate (min s.queue.length MAX_WORKERS - s.workers.length) ⟨true⟩)
    ∧ (∀ s : PusherState, s.workers.length ≤ MAX_WORKERS →
        (tuneWorkers s).workers.length ≤ MAX_WORKERS)
    ∧ (∀ (l : List Item) (now : Time), l.length = 10 →
        (l.foldl (fun st i => push st i now) initState).workers.length = MAX_WORKERS) := by
  refine ⟨?_, ?_, ?_⟩
  · intro s h
    rw [tuneWorkers_workers, pruneWorkers_all_alive s.workers h]
  · intro s h
    rw [tuneWorkers_workers]
    have hp := pruneWorkers_length_le s.workers
    have hm : min s.queue.length MAX_WORKERS ≤ MAX_WORKERS := Nat.min_le_right _ _
    simp only [List.length_append, List.length_replicate]
    omega
  · intro l now hl
    have h := pushFold_workers_invariant now l initState rfl rfl
    rw [h.2.2, h.2.1, hl]
    simp [initState, MAX_WORKERS]

/-- Closed instance of `C7_worker_pool`: ten records submitted into a fresh pusher leave
a roster of exactly `MAX_WORKERS` threads. -/
theorem C7_worker_pool_witness :
    ((List.map (fun n => (⟨n, [], none⟩ : Item)) [0, 1, 2, 3, 4, 5, 6, 7, 8, 9]).foldl
        (fun st i => push st i 0) initState).workers.length = MAX_WORKERS :=
  C7_worker_pool.2.2 (List.map (fun n => (⟨n, [], none⟩ : Item)) [0, 1, 2, 3, 4, 5, 6, 7, 8, 9])
    0 (by simp)

/-- C8: the dispatch queue is last-in-first-out — records A, B, C submitted in that
order with no other activity are popped by a single worker in the order C, B, A,
whatever transport outcomes the three send attempts encounter. -/
theorem C8_lifo_pop_order (a b c : Item) (r1 r2 r3 : HttpOutcome) (t : Time) :
    (runObs initState
        [Event.push a t, Event.push b t, Event.push c t,
         Event.work r1 t, Event.work r2 t, Event.work r3 t]).map Obs.popped
      = [none, none, none, some c, some b, some a] := by
  simp only [runObs, step, initState, push, Bool.false_eq_true, if_false,
    tuneWorkers_queue, tuneWorkers_offline, workerIter, List.map_cons, List.map_nil]

/-- Once `_http_offline` is set, any single step keeps it set, invokes no HTTP POST, and
only ever appends to `_failedque`. -/
theorem step_offline_mono (s : PusherState) (e : Event) (h : s.http_offline = true) :
    (step s e).1.http_offline = true
    ∧ (step s e).2.sent = none
    ∧ ∃ t, (step s e).1.failedque = s.failedque ++ t := by
  cases e with
  | push item now =>
    refine ⟨?_, rfl, ⟨[stampQT now item], ?_⟩⟩ <;> simp [step, push, h]
  | work resp now =>
    cases hq : s.queue with
    | nil =>
      refine ⟨?_, ?_, ⟨[], ?_⟩⟩ <;> simp [step, workerIter, hq, h]
    | cons i rest =>
      have hr : send_data s.http_offline resp = ⟨false, true, false⟩ := by
        rw [h]
        rfl
      refine ⟨?_, ?_, ⟨[stampQT now i], ?_⟩⟩ <;> simp [step, workerIter, hq, hr]

theorem run_offline_mono : ∀ (tr : List Event) (s : PusherState),
    s.http_offline = true → (run s tr).http_offline = true
  | [], _, h => h
  | e :: es, s, h => run_offline_mono es _ (step_offline_mono s e h).1

theorem runObs_offline_sent_none : ∀ (tr : List Event) (s : PusherState),
    s.http_offline = true → ∀ o ∈ runObs s tr, o.sent = none
  | [], _, _ => by
    intro o ho
    simp [runObs] at ho
  | e :: es, s, h => by
    intro o ho
    simp only [runObs, List.mem_cons] at ho
    rcases ho with rfl | ho
    · exact (step_offline_mono s e h).2.1
    · exact runObs_offline_sent_none es _ (step_offline_mono s e h).1 o ho

theorem run_offline_failedque_mem : ∀ (tr : List Event) (s : PusherState),
    s.http_offline = true → ∀ x ∈ s.failedque, x ∈ (run s tr).failedque
  | [], _, _ => fun _ hx => hx
  | e :: es, s, h => fun x hx => by
    apply run_offline_failedque_mem es _ (step_offline_mono s e h).1
    obtain ⟨t, ht⟩ := (step_offline_mono s e h).2.2
    rw [ht]
    exact List.mem_append_left t hx

/-- C1: `_http_offline` is set to true when a send from an online state meets an
Unreachable outcome (a network error, timeout or other exception, or a 5xx response);
it is never reset by any later step of the process; and once it is set, every
subsequently pushed record bypasses the live queue (the queue is untouched and no step
of the rest of the process ever invokes the HTTP POST), is timestamped when it lacks a
"qt" key, and is appended to `_failedque`, where it remains through every later step and
hence is part of the `get_items()` snapshot that the final backup persists. -/
theorem C1_offline_latch :
    (∀ resp, unreachableResp resp → (send_data false resp).offline = true)
    ∧ (∀ (s : PusherState) (tr : List Event), s.http_offline = true →
        (run s tr).http_offline = true)
    ∧ (∀ (s : PusherState) (item : Item) (now : Time), s.http_offline = true →
        ((step s (Event.push item now)).1.queue = s.queue
          ∧ (step s (Event.push item now)).1.failedque
              = s.failedque ++ [stampQT now item]
          ∧ (stampQT now item).qt ≠ none))
    ∧ (∀ (s : PusherState) (tr : List Event), s.http_offline = true →
        ∀ o ∈ runObs s tr, o.sent = none)
    ∧ (∀ (s : PusherState) (item : Item) (now : Time) (tr : List Event),
        s.http_offline = true →
        stampQT now item ∈ (run (step s (Event.push item now)).1 tr).failedque
          ∧ stampQT now item ∈ get_items (run (step s (Event.push item now)).1 tr)) := by
  have htrip : ∀ resp, unreachableResp resp → (send_data false resp).offline = true := by
    intro resp h
    rcases h with rfl | ⟨c, rfl, hc1, hc2⟩
    · rfl
    · unfold send_data
      simp only [Bool.false_eq_true, if_false]
      rw [if_pos (by omega), if_neg (by omega)]
  have hpush : ∀ (s : PusherState) (item : Item) (now : Time), s.http_offline = true →
      ((step s (Event.push item now)).1.queue = s.queue
        ∧ (step s (Event.push item now)).1.failedque = s.failedque ++ [stampQT now item]
        ∧ (stampQT now item).qt ≠ none) := by
    intro s item now h
    refine ⟨by simp [step, push, h], by simp [step, push, h], ?_⟩
    unfold stampQT
    split
    · simp
    · next hne => exact hne
  refine ⟨htrip, fun s tr h => run_offline_mono tr s h, hpush,
    fun s tr h => runObs_offline_sent_none tr s h, ?_⟩
  intro s item now tr h
  have h1 := (hpush s item now h).2.1
  have hoff : (step s (Event.push item now)).1.http_offline = true :=
    (step_offline_mono s (Event.push item now) h).1
  have hmem : stampQT now item ∈ (step s (Event.push item now)).1.failedque := by
    rw [h1]
    exact List.mem_append_right _ (List.mem_cons_self _ _)
  have hfinal := run_offline_failedque_mem tr _ hoff _ hmem
  exact ⟨hfinal, List.mem_append_left _ hfinal⟩

/-- Closed instance of `C1_offline_latch`: a record pushed into a tripped pusher is still
in `_failedque` (and in the `get_items()` snapshot) after a further worker step. -/
theorem C1_offline_latch_witness :
    stampQT 0 ⟨1, [], none⟩
        ∈ (run (step ⟨[], [], true, []⟩ (Event.push ⟨1, [], none⟩ 0)).1
            [Event.work HttpOutcome.netError 0]).failedque
      ∧ stampQT 0 ⟨1, [], none⟩
          ∈ get_items (run (step ⟨[], [], true, []⟩ (Event.push ⟨1, [], none⟩ 0)).1
              [Event.work HttpOutcome.netError 0]) :=
  C1_offline_latch.2.2.2.2 ⟨[], [], true, []⟩ ⟨1, [], none⟩ 0
    [Event.work HttpOutcome.netError 0] rfl


/-- C3 counterexample: with one failed record held by the pusher, a `KeyboardInterrupt`
during the first sleep of the shutdown wait makes `_finalize` return with the store
untouched — `backup_reports` is never reached and the non-empty snapshot is lost, not
persisted. -/
theorem C3_interrupt_skips_backup :
    get_items ⟨[], [⟨1, [], none⟩], true, []⟩ = [⟨1, [], none⟩]
    ∧ finalize ⟨[], [⟨1, [], none⟩], true, []⟩ (fun _ => true) (some 0) (some []) 0
        = (some [], false) := by
  decide

theorem finalizePollsAux_le : ∀ (inWait : Nat → Bool) (intr : Option Nat)
    (fuel k n : Nat), k ≤ 5 → finalizePollsAux inWait intr fuel k = some n → n ≤ 5
  | _, _, 0, k, n, hk, h => by
    injection h with h
    omega
  | inWait, intr, fuel + 1, k, n, hk, h => by
    rw [finalizePollsAux] at h
    by_cases hg : 200 * k < 1000
    · rw [if_pos hg] at h
      by_cases hw : !(inWait k)
      · rw [if_pos hw] at h
        injection h with h
        omega
      · rw [if_neg hw] at h
        by_cases hi : intr = some k
        · rw [if_pos hi] at h
          exact absurd h (by simp)
        · rw [if_neg hi] at h
          exact finalizePollsAux_le inWait intr fuel (k + 1) n (by omega) h
    · rw [if_neg hg] at h
      injection h with h
      omega

theorem finalizePollsAux_no_intr_semantics : ∀ (inWait : Nat → Bool) (fuel k n : Nat),
    5 ≤ k + fuel → finalizePollsAux inWait none fuel k = some n →
    (k ≤ n ∧ (∀ j, k ≤ j → j < n → inWait j = true)
      ∧ (200 * n < 1000 → inWait n = false))
  | inWait, 0, k, n, hf, h => by
    injection h with h
    subst h
    refine ⟨Nat.le_refl _, fun j h1 h2 => absurd h1 (by omega), fun hlt => ?_⟩
    omega
  | inWait, fuel + 1, k, n, hf, h => by
    rw [finalizePollsAux] at h
    by_cases hg : 200 * k < 1000
    · rw [if_pos hg] at h
      by_cases hw : !(inWait k)
      · rw [if_pos hw] at h
        injection h with h
        subst h
        exact ⟨Nat.le_refl _, fun j h1 h2 => absurd h1 (by omega),
          fun _ => by simpa using hw⟩
      · rw [if_neg hw] at h
        rw [if_neg (by simp)] at h
        obtain ⟨h1, h2, h3⟩ :=
          finalizePollsAux_no_intr_semantics inWait fuel (k + 1) n (by omega) h
        refine ⟨by omega, fun j hj1 hj2 => ?_, h3⟩
        rcases Nat.eq_or_lt_of_le hj1 with rfl | hlt
        · simpa using hw
        · exact h2 j hlt hj2
    · rw [if_neg hg] at h
      injection h with h
      subst h
      exact ⟨Nat.le_refl _, fun j h1 h2 => absurd h1 (by omega), fun hlt => absurd hlt hg⟩

theorem finalizePollsAux_no_intr_ne_none : ∀ (inWait : Nat → Bool) (fuel k : Nat),
    finalizePollsAux inWait none fuel k ≠ none
  | _, 0, k => by simp [finalizePollsAux]
  | inWait, fuel + 1, k => by
    rw [finalizePollsAux]
    by_cases hg : 200 * k < 1000
    · rw [if_pos hg]
      by_cases hw : !(inWait k)
      · rw [if_pos hw]
        simp
      · rw [if_neg hw, if_neg (by simp)]
        exact finalizePollsAux_no_intr_ne_none inWait fuel (k + 1)
    · rw [if_neg hg]
      simp

theorem finalizePollsAux_interrupted : ∀ (inWait : Nat → Bool) (k fuel j : Nat),
    j ≤ k → k < 5 → k + 1 ≤ j + fuel → (∀ i, j ≤ i → i ≤ k → inWait i = true) →
    finalizePollsAux inWait (some k) fuel j = none
  | inWait, k, 0, j, hjk, hk, hfuel, _ => absurd hfuel (by omega)
  | inWait, k, fuel + 1, j, hjk, hk, hfuel, hw => by
    rw [finalizePollsAux]
    rw [if_pos (by omega)]
    rw [if_neg (by simp [hw j (Nat.le_refl j) hjk])]
    rcases Nat.eq_or_lt_of_le hjk with rfl | hlt
    · rw [if_pos rfl]
    · rw [if_neg (by simp; omega)]
      exact finalizePollsAux_interrupted inWait k fuel (j + 1) (by omega) hk (by omega)
        (fun i h1 h2 => hw i (by omega) h2)


/-- C3 (amended): `_finalize` polls the pending count at most 5 times with a 200 ms sleep
after each poll (at most 1000 ms of waiting), stops polling as soon as `in_wait()` is
falsy, and an uninterrupted run then persists the `get_items()` snapshot via
`backup_reports`; but a `KeyboardInterrupt` delivered during one of the sleeps is caught
by the surrounding `except KeyboardInterrupt: pass` handler AFTER abandoning the loop, so
the snapshot is NOT persisted — the hook returns normally with the store untouched. -/
theorem C3_finalize_behaviour :
    (∀ (inWait : Nat → Bool) (intr : Option Nat) (n : Nat),
        finalizePolls inWait intr = some n → n ≤ 5)
    ∧ (∀ (inWait : Nat → Bool) (n : Nat), finalizePolls inWait none = some n →
        ((∀ j, j < n → inWait j = true) ∧ (n < 5 → inWait n = false)))
    ∧ (∀ (s : PusherState) (inWait : Nat → Bool) (store : Option (List Item))
          (now : Time),
        finalize s inWait none store now
          = ((backup_reports store (get_items s) now).1, true))
    ∧ (∀ (s : PusherState) (inWait : Nat → Bool) (store : Option (List Item))
          (now : Time) (k : Nat), k < 5 → (∀ j, j ≤ k → inWait j = true) →
        finalize s inWait (some k) store now = (store, false)) := by
  refine ⟨?_, ?_, ?_, ?_⟩
  · intro inWait intr n h
    exact finalizePollsAux_le inWait intr 6 0 n (by omega) h
  · intro inWait n h
    obtain ⟨h1, h2, h3⟩ := finalizePollsAux_no_intr_semantics inWait 6 0 n (by omega) h
    exact ⟨fun j hj => h2 j (by omega) hj, fun hn => h3 (by omega)⟩
  · intro s inWait store now
    unfold finalize
    cases h : finalizePolls inWait none with
    | none => exact absurd h (finalizePollsAux_no_intr_ne_none inWait 6 0)
    | some n => rfl
  · intro s inWait store now k hk hw
    unfold finalize
    rw [show finalizePolls inWait (some k) = none from
      finalizePollsAux_interrupted inWait k 6 0 (by omega) hk (by omega)
        (fun i _ h2 => hw i h2)]

/-- Closed instance of `C3_finalize_behaviour`: an interrupt during the third sleep while
work is still pending leaves the persisted backup exactly as it was. -/
theorem C3_finalize_behaviour_witness :
    finalize ⟨[], [⟨1, [], none⟩], true, []⟩ (fun _ => true) (some 2)
        (some [⟨9, [], none⟩]) 0
      = (some [⟨9, [], none⟩], false) :=
  C3_finalize_behaviour.2.2.2 ⟨[], [⟨1, [], none⟩], true, []⟩ (fun _ => true)
    (some [⟨9, [], none⟩]) 0 2 (by omega) (fun j _ => rfl)


/-- C9: with the `enable_telemetry` setting disabled, `MeasurementProtocol.send` returns
without pushing anything, so the replay loop of `resend_backuped_reports` leaves the
pusher untouched — yet the function still unconditionally clears a non-empty persisted
backlog afterwards; the later shutdown backup then sees an empty `get_items()` snapshot
and performs no state access, so the stored records are discarded without any of them
being enqueued, sent or re-persisted. -/
theorem C9_disabled_discards_backlog (b : List Item) (hb : b ≠ []) (t1 t2 : Time) :
    (∀ i, MPsend false t1 i = none)
    ∧ resend_backuped_reports false t1 initState (some b) = (initState, some [], true)
    ∧ get_items initState = []
    ∧ backup_reports (some []) (get_items initState) t2 = (some [], []) := by
  refine ⟨fun i => rfl, ?_, rfl, rfl⟩
  unfold resend_backuped_reports
  simp only [if_neg hb]
  have hfold : ∀ (l : List Item) (s : PusherState),
      l.foldl (fun st rep =>
        match MPsend false t1 (mkResendItem rep) with
        | none => st
        | some it => push st it t1) s = s := by
    intro l
    induction l with
    | nil => intro s; rfl
    | cons x xs ih =>
      intro s
      simp only [List.foldl_cons]
      have hnone : MPsend false t1 (mkResendItem x) = none := rfl
      rw [hnone]
      exact ih s
  rw [hfold]

/-- Closed instance of `C9_disabled_discards_backlog`: a one-record backlog is cleared
while the pusher stays in its initial state. -/
theorem C9_disabled_discards_backlog_witness :
    resend_backuped_reports false 0 initState (some [⟨1, [], none⟩])
      = (initState, some [], true) :=
  (C9_disabled_discards_backlog [⟨1, [], none⟩] (by simp) 0 0).2.1


theorem stampQT_payload (now : Time) (i : Item) : (stampQT now i).payload = i.payload := by
  unfold stampQT
  split <;> rfl

theorem backupItem_payload (t : Time) (i : Item) : (backupItem t i).payload = i.payload := by
  unfold backupItem
  cases h : i.qt with
  | none => rfl
  | some q => cases q <;> rfl

theorem mkResendItem_payload (i : Item) : (mkResendItem i).payload = i.payload := rfl

theorem send_data_failing (resp : HttpOutcome) (h : failing resp) :
    ∀ off, (send_data off resp).ok = false := by
  intro off
  cases off with
  | false => exact h
  | true => rfl

theorem MPsend_true_payload (now : Time) (i : Item) :
    ∃ j, MPsend true now i = some j ∧ j.payload = i.payload :=
  ⟨_, rfl, rfl⟩

/-- One `push` adds exactly the pushed record's payload to the live pool
(queue plus failure-tracking set), whichever branch it takes. -/
theorem push_payload_perm (s : PusherState) (i : Item) (now : Time) :
    (((push s i now).queue ++ (push s i now).failedque).map Item.payload).Perm
      (i.payload :: (s.queue ++ s.failedque).map Item.payload) := by
  cases hoff : s.http_offline with
  | true =>
    have hp : push s i now = { s with failedque := s.failedque ++ [stampQT now i] } := by
      unfold push
      rw [hoff]
      simp
    rw [hp]
    show (List.map Item.payload
        (s.queue ++ (s.failedque ++ [stampQT now i]))).Perm _
    rw [← List.append_assoc, List.map_append]
    have h1 : List.map Item.payload [stampQT now i] = [i.payload] := by
      simp [stampQT_payload]
    rw [h1]
    exact List.perm_append_comm
  | false =>
    have hp : push s i now = tuneWorkers { s with queue := i :: s.queue } := by
      unfold push
      rw [hoff]
      simp
    rw [hp, tuneWorkers_queue, tuneWorkers_failedque]
    exact List.Perm.refl _

/-- A worker iteration with a failing transport outcome preserves the multiset of
payloads in the live pool: the popped record's clone lands in `_failedque`. -/
theorem workerIter_payload_perm (s : PusherState) (resp : HttpOutcome) (now : Time)
    (hfail : failing resp) :
    ((((workerIter s resp now).1.queue ++ (workerIter s resp now).1.failedque).map
        Item.payload)).Perm ((s.queue ++ s.failedque).map Item.payload) := by
  cases hq : s.queue with
  | nil =>
    simp [workerIter, hq]
  | cons item rest =>
    have hw : (workerIter s resp now).1
        = ⟨rest, s.failedque ++ [stampQT now item],
           (send_data s.http_offline resp).offline, s.workers⟩ := by
      unfold workerIter
      rw [hq]
      dsimp only
      rw [send_data_failing resp hfail s.http_offline]
      simp
    rw [hw]
    show (List.map Item.payload
        (rest ++ (s.failedque ++ [stampQT now item]))).Perm _
    rw [← List.append_assoc, List.map_append]
    have h1 : List.map Item.payload [stampQT now item] = [item.payload] := by
      simp [stampQT_payload]
    rw [h1]
    exact List.perm_append_comm


theorem perm_append_right_ext {α : Type} {A B C D : List α} (E : List α)
    (h : (A ++ B).Perm (C ++ D)) : (A ++ (B ++ E)).Perm (C ++ (D ++ E)) := by
  rw [← List.append_assoc, ← List.append_assoc]
  exact h.append_right E

theorem perm_insert_middle {α : Type} {A B C D : List α} {a : α} (E : List α)
    (h : (A ++ B).Perm (a :: (C ++ D))) :
    (A ++ (B ++ E)).Perm (C ++ (D ++ a :: E)) := by
  rw [← List.append_assoc]
  refine (h.append_right E).trans ?_
  rw [List.cons_append, List.append_assoc]
  have hmid : ((C ++ D) ++ a :: E).Perm (a :: ((C ++ D) ++ E)) := List.perm_middle
  rw [List.append_assoc] at hmid
  rw [← List.append_assoc]
  exact hmid.symm

/-- The payload multiset of live pool plus still-to-replay reports is invariant under
every interleaving of the resend loop (telemetry enabled) with worker iterations whose
transport outcomes all fail. -/
theorem interleave_payload_perm (now : Time) : ∀ (sched : List SEv) (s : PusherState)
    (todo : List Item), (∀ r, SEv.work r ∈ sched → failing r) →
    (((interleave true now s todo sched).1.queue
        ++ ((interleave true now s todo sched).1.failedque
          ++ (interleave true now s todo sched).2)).map Item.payload).Perm
      ((s.queue ++ (s.failedque ++ todo)).map Item.payload)
  | [], s, todo, _ => List.Perm.refl _
  | SEv.submit :: evs, s, todo, hf => by
    have hf' : ∀ r, SEv.work r ∈ evs → failing r :=
      fun r hr => hf r (List.mem_cons_of_mem _ hr)
    cases todo with
    | nil =>
      have hred : interleave true now s [] (SEv.submit :: evs)
          = interleave true now s [] evs := rfl
      rw [hred]
      exact interleave_payload_perm now evs s [] hf'
    | cons rep rest =>
      have hred : interleave true now s (rep :: rest) (SEv.submit :: evs)
          = interleave true now (push s (qtCorrect now (mkResendItem rep)) now) rest
              evs := rfl
      rw [hred]
      refine (interleave_payload_perm now evs _ rest hf').trans ?_
      have hpush := push_payload_perm s (qtCorrect now (mkResendItem rep)) now
      have hpay : (qtCorrect now (mkResendItem rep)).payload = rep.payload := rfl
      rw [hpay] at hpush
      simp only [List.map_append, List.map_cons] at hpush ⊢
      exact perm_insert_middle _ hpush
  | SEv.work r :: evs, s, todo, hf => by
    have hf' : ∀ r, SEv.work r ∈ evs → failing r :=
      fun x hx => hf x (List.mem_cons_of_mem _ hx)
    have hfr : failing r := hf r (List.mem_cons_self _ _)
    have hred : interleave true now s todo (SEv.work r :: evs)
        = interleave true now (workerIter s r now).1 todo evs := rfl
    rw [hred]
    refine (interleave_payload_perm now evs _ todo hf').trans ?_
    have hw := workerIter_payload_perm s r now hfr
    simp only [List.map_append, List.map_cons] at hw ⊢
    exact perm_append_right_ext _ hw


/-- C4: startup resend replays every stored record into the live pipeline (reusing its
fields, with the queue time corrected) and then unconditionally clears the store; with
the transport always failing, for every interleaving of the replay loop with the worker
iterations that replays all N stored records (N within the cap), the shutdown backup
persists exactly those N records again — the same multiset of record payloads, none
lost and none duplicated, though possibly reordered. -/
theorem C4_startup_resend_roundtrip (items : List Item) (sched : List SEv)
    (t1 t2 : Time) (hcap : items.length ≤ KEEP_MAX_REPORTS)
    (hfail : ∀ r, SEv.work r ∈ sched → failing r)
    (hdone : (interleave true t1 initState items sched).2 = []) :
    (items ≠ [] →
        (resend_backuped_reports true t1 initState (some items)).2.1 = some [])
    ∧ ∃ l, (backup_reports (some [])
          (get_items (interleave true t1 initState items sched).1) t2).1 = some l
        ∧ (l.map Item.payload).Perm (items.map Item.payload)
        ∧ l.length = items.length := by
  constructor
  · intro hne
    simp only [resend_backuped_reports, if_neg hne]
  · have hperm0 := interleave_payload_perm t1 sched initState items hfail
    rw [hdone] at hperm0
    simp only [initState, List.append_nil, List.nil_append] at hperm0
    have hsnap : ((get_items (interleave true t1 initState items sched).1).map
        Item.payload).Perm (items.map Item.payload) := by
      unfold get_items
      refine ((List.perm_append_comm).map Item.payload).trans ?_
      simpa using hperm0
    have hlen : (get_items (interleave true t1 initState items sched).1).length
        = items.length := by
      have h := hsnap.length_eq
      simpa using h
    by_cases hni : get_items (interleave true t1 initState items sched).1 = []
    · have hitems : items.map Item.payload = [] := by
        rw [hni] at hsnap
        exact (hsnap.symm).eq_nil
      have hitems2 : items = [] := List.map_eq_nil_iff.mp hitems
      refine ⟨[], ?_, ?_, ?_⟩
      · rw [hni]
        rfl
      · rw [hitems]
        exact List.Perm.refl _
      · rw [hitems2]
    · have hle : (get_items (interleave true t1 initState items sched).1).length
          ≤ KEEP_MAX_REPORTS := hlen ▸ hcap
      refine ⟨(get_items (interleave true t1 initState items sched).1).map
        (backupItem t2), ?_, ?_, ?_⟩
      · unfold backup_reports
        rw [if_neg hni]
        dsimp only
        have hz : (((some ([] : List Item)).getD []
            ++ (get_items (interleave true t1 initState items sched).1).map
                (backupItem t2)).length - KEEP_MAX_REPORTS) = 0 := by
          simp only [Option.getD_some, List.nil_append, List.length_map]
          omega
        rw [hz, List.drop_zero]
        simp
      · rw [List.map_map]
        have hmap : (get_items (interleave true t1 initState items sched).1).map
            (Item.payload ∘ backupItem t2)
            = (get_items (interleave true t1 initState items sched).1).map
                Item.payload :=
          List.map_congr_left (fun a _ => backupItem_payload t2 a)
        rw [hmap]
        exact hsnap
      · rw [List.length_map]
        exact hlen

/-- Closed instance of `C4_startup_resend_roundtrip`: two stored records, replayed
serially with the transport failing, are both persisted again at shutdown. -/
theorem C4_startup_resend_roundtrip_witness :
    ((([⟨1, [], none⟩, ⟨2, [], none⟩] : List Item) ≠ [] →
        (resend_backuped_reports true 0 initState
            (some [⟨1, [], none⟩, ⟨2, [], none⟩])).2.1 = some [])
      ∧ ∃ l, (backup_reports (some [])
            (get_items (interleave true 0 initState [⟨1, [], none⟩, ⟨2, [], none⟩]
                [SEv.submit, SEv.submit, SEv.work HttpOutcome.netError,
                  SEv.work HttpOutcome.netError]).1) 0).1 = some l
          ∧ (l.map Item.payload).Perm
              (([⟨1, [], none⟩, ⟨2, [], none⟩] : List Item).map Item.payload)
          ∧ l.length = ([⟨1, [], none⟩, ⟨2, [], none⟩] : List Item).length) :=
  C4_startup_resend_roundtrip [⟨1, [], none⟩, ⟨2, [], none⟩]
    [SEv.submit, SEv.submit, SEv.work HttpOutcome.netError,
      SEv.work HttpOutcome.netError] 0 0
    (by simp [KEEP_MAX_REPORTS])
    (by
      intro r hr
      simp only [List.mem_cons] at hr
      rcases hr with h | h | h | h <;> simp_all [failing]
      all_goals rfl)
    (by decide)

end Telemetry
